import Mathlib

/-!
Shallow embedding of the sightings analytics module (`avistamientos.py`).

Python floats are modelled as rationals (`ℚ`), Python ints as `ℤ`, Python
strings as `String`.  Python `datetime`/`date` values are modelled as records
of their calendar fields, ordered lexicographically exactly as Python orders
them.  Python tuple comparison (used by `max` and `sorted` on `NamedTuple`
values) is lexicographic over the fields in declaration order, which we model
with nested `Lex` products.  Python dictionaries preserve insertion order of
keys, which we model as association lists where a fresh key is appended at the
end.  Python `list.sort`/`sorted` is a stable sort, modelled by
`List.mergeSort` (stable by `List.sublist_mergeSort`).  A Python function that
may raise on an empty selection is modelled as returning an `Option`, with
`none` for the raising branch.
-/

/-- Geographic coordinate, from `coordenadas.Coordenadas` (a NamedTuple of two
floats). -/
structure Coordenadas where
  latitud : ℚ
  longitud : ℚ
deriving DecidableEq

/-- Calendar date (the value of Python `datetime.date()`). -/
structure Date where
  year : ℤ
  month : ℤ
  day : ℤ
deriving DecidableEq

/-- Timestamp to the minute (the precision of the loader format
`%m/%d/%Y %H:%M`). -/
structure DateTime where
  date : Date
  hour : ℤ
  minute : ℤ
deriving DecidableEq

/-- The sighting record, from the `Avistamiento` NamedTuple. -/
structure Avistamiento where
  fechahora : DateTime
  ciudad : String
  estado : String
  forma : String
  duracion : ℤ
  comentarios : String
  ubicacion : Coordenadas
deriving DecidableEq

/-- Lexicographic key of a coordinate pair (Python tuple comparison). -/
def Coordenadas.key (c : Coordenadas) : ℚ ×ₗ ℚ :=
  toLex (c.latitud, c.longitud)

instance : LinearOrder Coordenadas :=
  LinearOrder.lift' Coordenadas.key (by
    intro a b h
    cases a; cases b
    simpa [Coordenadas.key, Prod.ext_iff] using h)

/-- Lexicographic key of a calendar date: Python compares dates by
(year, month, day). -/
def Date.key (d : Date) : ℤ ×ₗ ℤ ×ₗ ℤ :=
  toLex (d.year, toLex (d.month, d.day))

instance : LinearOrder Date :=
  LinearOrder.lift' Date.key (by
    intro a b h
    cases a; cases b
    simpa [Date.key, Prod.ext_iff] using h)

/-- Lexicographic key of a timestamp: Python compares datetimes by
(date, time-of-day). -/
def DateTime.key (t : DateTime) : Date ×ₗ ℤ ×ₗ ℤ :=
  toLex (t.date, toLex (t.hour, t.minute))

instance : LinearOrder DateTime :=
  LinearOrder.lift' DateTime.key (by
    intro a b h
    cases a; cases b
    simpa [DateTime.key, Prod.ext_iff] using h)

/-- Lexicographic key of a full record: Python compares NamedTuple values
field by field in declaration order. -/
def Avistamiento.key (a : Avistamiento) :
    DateTime ×ₗ String ×ₗ String ×ₗ String ×ₗ ℤ ×ₗ String ×ₗ Coordenadas :=
  toLex (a.fechahora, toLex (a.ciudad, toLex (a.estado, toLex (a.forma,
    toLex (a.duracion, toLex (a.comentarios, a.ubicacion))))))

instance : LinearOrder Avistamiento :=
  LinearOrder.lift' Avistamiento.key (by
    intro a b h
    cases a; cases b
    simpa [Avistamiento.key, Prod.ext_iff] using h)

/-- Proleptic-Gregorian day number of a calendar date (the count underlying
Python `date.toordinal`, shifted by a constant).  Subtracting two of these
gives the `.days` of the `timedelta` between two `date` values. -/
def Date.toOrdinal (d : Date) : ℤ :=
  let y : ℤ := if d.month ≤ 2 then d.year - 1 else d.year
  let era : ℤ := Int.fdiv y 400
  let yoe : ℤ := y - era * 400
  let mp : ℤ := if d.month ≤ 2 then d.month + 9 else d.month - 3
  let doy : ℤ := Int.fdiv (153 * mp + 2) 5 + d.day - 1
  let doe : ℤ := yoe * 365 + Int.fdiv yoe 4 - Int.fdiv yoe 100 + doy
  era * 146097 + doe - 719468

/-- Python `max(xs, key=k)`: raises on an empty sequence (modelled as
`none`), otherwise keeps the current maximum and replaces it only when a
later element has a strictly greater key — so ties yield the first maximal
element. -/
def pymax {α β : Type} [LinearOrder β] (key : α → β) : List α → Option α
  | [] => none
  | x :: xs => some (xs.foldl (fun c a => if key c < key a then a else c) x)

/-- Python dict write `res[k] = f(res[k] if k in res else d)`: an existing key
keeps its position, a fresh key is appended at the end (insertion order). -/
def dictUpdate {κ v : Type} [DecidableEq κ] :
    List (κ × v) → κ → v → (v → v) → List (κ × v)
  | [], k, d, f => [(k, f d)]
  | (k1, v1) :: m, k, d, f =>
      if k = k1 then (k1, f v1) :: m else (k1, v1) :: dictUpdate m k d f

/-- Generic Python dict-building loop
`for a in l: res[key a] = upd a (res.get(key a, init))`
(the shape of every grouping loop in the module, with `defaultdict` or an
explicit membership test). -/
def pyDict {κ v : Type} [DecidableEq κ] (key : Avistamiento → κ) (init : v)
    (upd : Avistamiento → v → v) (l : List Avistamiento) : List (κ × v) :=
  l.foldl (fun m a => dictUpdate m (key a) init (upd a)) []

/-- Lookup in an association list (leftmost binding). -/
def findVal {κ v : Type} [DecidableEq κ] : List (κ × v) → κ → Option v
  | [], _ => none
  | (k1, v1) :: m, k => if k = k1 then some v1 else findVal m k

/-- Test that the first list occurs at the head of the second. -/
def isPrefB {α : Type} [DecidableEq α] : List α → List α → Bool
  | [], _ => true
  | _ :: _, [] => false
  | a :: as, b :: bs => decide (a = b) && isPrefB as bs

/-- Test that the first list occurs as a contiguous run inside the second —
Python substring test `xs in ys`. -/
def isSubB {α : Type} [DecidableEq α] (xs : List α) : List α → Bool
  | [] => xs.isEmpty
  | y :: ys => isPrefB xs (y :: ys) || isSubB xs ys

/-- Python `palabra.lower() in comentarios.lower()` (string lowering maps
`Char.toLower` over the characters). -/
def contieneCI (palabra comentarios : String) : Bool :=
  isSubB (palabra.data.map Char.toLower) (comentarios.data.map Char.toLower)

/-!
### The query engine

`coordenadas.distancia` is imported by the module but its source is not part
of the repository snapshot.  Modelled from the spec: §4.1 only fixes that
`distance(a, b)` is a non-negative float metric used consistently by every
proximity query, so the embedding passes the metric as an explicit parameter
`dist` to the functions that use it.
-/

/-- Section 2.4 `avistamientos_cercanos_ubicacion`: the loop `res = set();
for a: if distancia(a.ubicacion, ubicacion) < radio: res.add(a)`. -/
def avistamientos_cercanos_ubicacion (dist : Coordenadas → Coordenadas → ℚ)
    (avistamientos : List Avistamiento) (ubicacion : Coordenadas) (radio : ℚ) :
    Finset Avistamiento :=
  avistamientos.foldl
    (fun res a => if dist a.ubicacion ubicacion < radio then insert a res else res) ∅

/-- Section 3.1 `avistamiento_mayor_duracion`: filter by shape, then
`max(..., key=lambda a: a.duracion)` (raises on an empty selection: `none`). -/
def avistamiento_mayor_duracion (avistamientos : List Avistamiento)
    (forma : String) : Option Avistamiento :=
  pymax (fun a => a.duracion) (avistamientos.filter (fun a => a.forma = forma))

/-- Section 3.2 `avistamiento_cercano_mayor_duracion`: if the radius selection
is nonempty, `max((a.duracion, a.comentarios) for a in cercanos)` under Python
tuple comparison; otherwise the sentinel `None` (here `⊥`). -/
def avistamiento_cercano_mayor_duracion (dist : Coordenadas → Coordenadas → ℚ)
    (avistamientos : List Avistamiento) (coordenadas : Coordenadas)
    (radio : ℚ) : WithBot (ℤ ×ₗ String) :=
  let cercanos := avistamientos_cercanos_ubicacion dist avistamientos coordenadas radio
  if 0 < cercanos.card then
    (cercanos.image (fun a => toLex (a.duracion, a.comentarios))).max
  else ⊥

/-- Section 3.2 with the default radius argument `radio=0.5`. -/
def avistamiento_cercano_mayor_duracion_default
    (dist : Coordenadas → Coordenadas → ℚ) (avistamientos : List Avistamiento)
    (coordenadas : Coordenadas) : WithBot (ℤ ×ₗ String) :=
  avistamiento_cercano_mayor_duracion dist avistamientos coordenadas (1/2)

/-- Date-range test of §3.3: `(fecha_inicial is None or fecha_inicial <=
a.fechahora.date()) and (fecha_final is None or fecha_final >= a.fechahora.date())`. -/
def enRango (fecha_inicial fecha_final : Option Date) (a : Avistamiento) : Bool :=
  (match fecha_inicial with
   | none => true
   | some d => decide (d ≤ a.fechahora.date)) &&
  (match fecha_final with
   | none => true
   | some d => decide (a.fechahora.date ≤ d))

/-- Descending-timestamp comparison, the key of the §3.3 sort
(`key=lambda a: a.fechahora, reverse=True`). -/
def descFechahora (a b : Avistamiento) : Bool :=
  decide (b.fechahora ≤ a.fechahora)

/-- Section 3.3 `avistamientos_fechas`: filter to the inclusive date range,
then stable-sort the new list by timestamp, most recent first. -/
def avistamientos_fechas (avistamientos : List Avistamiento)
    (fecha_inicial fecha_final : Option Date) : List Avistamiento :=
  ((avistamientos.filter (enRango fecha_inicial fecha_final)).mergeSort descFechahora)

/-- Section 3.4 `comentario_mas_largo`: filter by year and case-insensitive
keyword, then `max(..., key=lambda a: len(a.comentarios))` (raises on an
empty selection: `none`). -/
def comentario_mas_largo (avistamientos : List Avistamiento) (anyo : ℤ)
    (palabra : String) : Option Avistamiento :=
  pymax (fun a => a.comentarios.length)
    (avistamientos.filter
      (fun a => decide (a.fechahora.date.year = anyo) && contieneCI palabra a.comentarios))

/-- Year restriction of §3.5: the whole input when `anyo` is `None`, else the
records of that year. -/
def seleccion_anyo (avistamientos : List Avistamiento) (anyo : Option ℤ) :
    List Avistamiento :=
  match anyo with
  | none => avistamientos
  | some y => avistamientos.filter (fun a => decide (a.fechahora.date.year = y))

/-- Full-record ascending comparison: Python `sorted(avistamientos_anyo)`
sorts the NamedTuples, i.e. lexicographically over all fields (timestamp
first). -/
def ascRecord (a b : Avistamiento) : Bool :=
  decide (a ≤ b)

/-- Consecutive differences of a list of integers
(`zip(lista, lista[1:])`). -/
def consecDiffs (xs : List ℤ) : List ℤ :=
  (xs.zip xs.tail).map (fun p => p.2 - p.1)

/-- Section 3.5 `media_dias_entre_avistamientos`: restrict to the year (if
given), sort ascending, average the day gaps of consecutive calendar dates;
`None` when no pair exists. -/
def media_dias_entre_avistamientos (avistamientos : List Avistamiento)
    (anyo : Option ℤ) : Option ℚ :=
  let ordenados := (seleccion_anyo avistamientos anyo).mergeSort ascRecord
  let dias := consecDiffs (ordenados.map (fun a => a.fechahora.date.toOrdinal))
  if 0 < dias.length then some ((dias.sum : ℚ) / (dias.length : ℚ)) else none

/-- Ascending-timestamp comparison (the sort key named by the spec). -/
def ascFechahora (a b : Avistamiento) : Bool :=
  decide (a.fechahora ≤ b.fechahora)

/-- Reference version of §3.5 written from the spec sentence of claim C4:
sort ascending by full timestamp (only), take consecutive pairs, average the
day-differences of their calendar dates, report no result on fewer than two
records. -/
def media_dias_entre_avistamientos_spec (avistamientos : List Avistamiento)
    (anyo : Option ℤ) : Option ℚ :=
  let ordenados := (seleccion_anyo avistamientos anyo).mergeSort ascFechahora
  let dias := consecDiffs (ordenados.map (fun a => a.fechahora.date.toOrdinal))
  if 0 < dias.length then some ((dias.sum : ℚ) / (dias.length : ℚ)) else none

/-- Section 4.1 `avistamientos_por_fecha`: group the records by calendar date
into sets. -/
def avistamientos_por_fecha (avistamientos : List Avistamiento) :
    List (Date × Finset Avistamiento) :=
  pyDict (fun a => a.fechahora.date) ∅ (fun a s => insert a s) avistamientos

/-- Section 4.3 `numero_avistamientos_por_año`: count records per calendar
year. -/
def numero_avistamientos_por_anyo (avistamientos : List Avistamiento) :
    List (ℤ × ℕ) :=
  pyDict (fun a => a.fechahora.date.year) 0 (fun _ n => n + 1) avistamientos

/-- Grouping loop of §4.7: per state, the list of comment lengths, in input
order. -/
def longitudes_comentarios_por_estado (avistamientos : List Avistamiento) :
    List (String × List ℕ) :=
  pyDict (fun a => a.estado) [] (fun a ls => ls ++ [a.comentarios.length]) avistamientos

/-- Section 4.7 `longitud_media_comentarios_por_estado`: mean comment length
per state. -/
def longitud_media_comentarios_por_estado (avistamientos : List Avistamiento) :
    List (String × ℚ) :=
  (longitudes_comentarios_por_estado avistamientos).map
    (fun p => (p.1, ((p.2.sum : ℚ) / (p.2.length : ℚ))))

/-- Counter `Counter(a.forma for a in ...)` of §4.8 (a Counter is a dict in
first-occurrence order). -/
def conteo_por_formas (avistamientos : List Avistamiento) : List (String × ℕ) :=
  pyDict (fun a => a.forma) 0 (fun _ n => n + 1) avistamientos

/-- Section 4.8 `porc_avistamientos_por_forma` (global version): percentage of
the whole input per shape. -/
def porc_avistamientos_por_forma (avistamientos : List Avistamiento) :
    List (String × ℚ) :=
  (conteo_por_formas avistamientos).map
    (fun p => (p.1, 100 * (p.2 : ℚ) / (avistamientos.length : ℚ)))

/-- Section 4.8 BIS `porc_avistamientos_por_forma` (year-restricted version,
the definition that shadows the previous one in the module): percentages are
relative to `sum(conteo.values())`, the number of records of that year. -/
def porc_avistamientos_por_forma_anyo (avistamientos : List Avistamiento)
    (anyo : ℤ) : List (String × ℚ) :=
  let conteo := conteo_por_formas
    (avistamientos.filter (fun a => decide (a.fechahora.date.year = anyo)))
  let total : ℕ := (conteo.map (fun p => p.2)).sum
  conteo.map (fun p => (p.1, 100 * (p.2 : ℚ) / (total : ℚ)))

/-- Division as Python evaluates it: `a / b` raises `ZeroDivisionError` when
`b = 0` (modelled as `none`).  Used to express, in the embedding, that a
function never reaches a division by zero. -/
def pydiv (a b : ℚ) : Option ℚ :=
  if b = 0 then none else some (a / b)

/-- Section 4.8 (global version) with every division routed through `pydiv`:
`some` exactly when no division by zero occurs. -/
def porc_avistamientos_por_forma_checked (avistamientos : List Avistamiento) :
    Option (List (String × ℚ)) :=
  (conteo_por_formas avistamientos).mapM
    (fun p => (pydiv (100 * (p.2 : ℚ)) ((avistamientos.length : ℕ) : ℚ)).map
      (fun q => (p.1, q)))

/-- Section 4.7 with every division routed through `pydiv`. -/
def longitud_media_comentarios_por_estado_checked
    (avistamientos : List Avistamiento) : Option (List (String × ℚ)) :=
  (longitudes_comentarios_por_estado avistamientos).mapM
    (fun p => (pydiv ((p.2.sum : ℕ) : ℚ) ((p.2.length : ℕ) : ℚ)).map
      (fun q => (p.1, q)))

/-- Grouping loop shared by §4.9 and §4.13: per state, the list of its records
in input order. -/
def agrupa_por_estado (avistamientos : List Avistamiento) :
    List (String × List Avistamiento) :=
  pyDict (fun a => a.estado) [] (fun a g => g ++ [a]) avistamientos

/-- Descending-duration comparison, the key of the §4.9 sort. -/
def descDuracion (a b : Avistamiento) : Bool :=
  decide (b.duracion ≤ a.duracion)

/-- Section 4.9 `avistamientos_mayor_duracion_por_estado`: per state,
stable-sort the group by duration descending and keep the first `n`. -/
def avistamientos_mayor_duracion_por_estado (avistamientos : List Avistamiento)
    (n : ℕ) : List (String × List Avistamiento) :=
  (agrupa_por_estado avistamientos).map
    (fun p => (p.1, (p.2.mergeSort descDuracion).take n))

/-- Section 4.9 with the default argument `n=3`. -/
def avistamientos_mayor_duracion_por_estado_default
    (avistamientos : List Avistamiento) : List (String × List Avistamiento) :=
  avistamientos_mayor_duracion_por_estado avistamientos 3

/-- Section 4.13 `avistamiento_mas_reciente_por_estado`: per state, the
timestamp of `max(grupo, key=lambda a: a.fechahora)` (which would raise on an
empty group: `none`). -/
def avistamiento_mas_reciente_por_estado (avistamientos : List Avistamiento) :
    List (String × Option DateTime) :=
  (agrupa_por_estado avistamientos).map
    (fun p => (p.1, (pymax (fun a => a.fechahora) p.2).map (fun a => a.fechahora)))

/-!
### Heap model for the mutation claims

Python list variables are references into a heap of mutable list objects.  We
model the heap of record-list objects as `Store`, with variables holding
addresses.  Building a fresh list (a loop of appends, `sorted`, or a slice)
allocates; `lista.sort()` writes in place at the address the variable holds.
The three operations cited by the frame claim are re-expressed at this level,
so that an in-place sort of the input (which the code does not perform, but a
one-line variant would) would be visible as a write at the input address.
-/

/-- Heap of record-list objects, addressed by position. -/
abbrev Store := List (List Avistamiento)

/-- Dereference an address (unused addresses read as empty). -/
def Store.read (σ : Store) (i : ℕ) : List Avistamiento :=
  σ.getD i []

/-- Allocate a fresh list object, returning its address. -/
def Store.alloc (σ : Store) (v : List Avistamiento) : ℕ × Store :=
  (σ.length, σ ++ [v])

/-- Overwrite the object at an address, as `lista.sort()` or
`lista.append(x)` does. -/
def Store.write (σ : Store) (i : ℕ) (v : List Avistamiento) : Store :=
  σ.set i v

/-- Heap-level §3.3: build the filtered list (a fresh allocation), then
`avistamientos_fechas.sort(...)` mutates that fresh list in place; the input
address is never written. -/
def avistamientos_fechas_st (σ : Store) (inp : ℕ)
    (fecha_inicial fecha_final : Option Date) : Store × ℕ :=
  let p := Store.alloc σ ((Store.read σ inp).filter (enRango fecha_inicial fecha_final))
  let σ2 := Store.write p.2 p.1 ((Store.read p.2 p.1).mergeSort descFechahora)
  (σ2, p.1)

/-- Heap-level §3.5: with `anyo = None` the local variable aliases the input
list (no copy); `sorted(...)` then allocates a fresh sorted list, and the
alias is rebound to it — the input address is never written. -/
def media_dias_entre_avistamientos_st (σ : Store) (inp : ℕ) (anyo : Option ℤ) :
    Store × Option ℚ :=
  let p : ℕ × Store :=
    match anyo with
    | none => (inp, σ)
    | some y => Store.alloc σ
        ((Store.read σ inp).filter (fun a => decide (a.fechahora.date.year = y)))
  let q := Store.alloc p.2 ((Store.read p.2 p.1).mergeSort ascRecord)
  let dias := consecDiffs ((Store.read q.2 q.1).map (fun a => a.fechahora.date.toOrdinal))
  (q.2, if 0 < dias.length then some ((dias.sum : ℚ) / (dias.length : ℚ)) else none)

/-- Heap-level grouping step of §4.9: `avistamientos_por_estados[av.estado].append(av)`
with a `defaultdict(list)` — a fresh key allocates an empty list object, and
the append writes at the address held by the dict. -/
def agrupaStep (st : Store × List (String × ℕ)) (a : Avistamiento) :
    Store × List (String × ℕ) :=
  match findVal st.2 a.estado with
  | some addr => (Store.write st.1 addr (Store.read st.1 addr ++ [a]), st.2)
  | none =>
      let p := Store.alloc st.1 []
      (Store.write p.2 p.1 [a], st.2 ++ [(a.estado, p.1)])

/-- Heap-level per-state step of §4.9:
`avistamientos_estado.sort(...)` writes the group list in place, then the
slice `avistamientos_estado[:n]` allocates a fresh truncated list which
replaces the dict value. -/
def recortaStep (n : ℕ) (st : Store × List (String × ℕ)) (e : String × ℕ) :
    Store × List (String × ℕ) :=
  let σ1 := Store.write st.1 e.2 ((Store.read st.1 e.2).mergeSort descDuracion)
  let p := Store.alloc σ1 ((Store.read σ1 e.2).take n)
  (p.2, st.2.map (fun q => if q.1 = e.1 then (q.1, p.1) else q))

/-- Heap-level §4.9: group (appending into per-state list objects), then sort
each group in place and rebind to a truncated copy; the input address is never
written. -/
def avistamientos_mayor_duracion_por_estado_st (σ : Store) (inp : ℕ) (n : ℕ) :
    Store × List (String × ℕ) :=
  let s1 := (Store.read σ inp).foldl agrupaStep (σ, [])
  s1.2.foldl (recortaStep n) s1

/-!
### Concrete sample data (used by the witnesses)
-/

/-- Sample metric for the abstract `dist` parameter (a taxicab metric on raw
coordinates — any metric fits the parameterised statements). -/
def distMan (p q : Coordenadas) : ℚ :=
  |p.latitud - q.latitud| + |p.longitud - q.longitud|

/-- Sample record: 2020-01-01, state CA, shape circle, duration 30. -/
def av1 : Avistamiento :=
  ⟨⟨⟨2020, 1, 1⟩, 10, 30⟩, "p", "CA", "circle", 30, "aa", ⟨0, 0⟩⟩

/-- Sample record: 2020-01-10, state CA, shape light, duration 20. -/
def av2 : Avistamiento :=
  ⟨⟨⟨2020, 1, 10⟩, 9, 0⟩, "q", "CA", "light", 20, "bbb", ⟨1, 0⟩⟩

/-- Sample record: 2020-01-20, state NV, shape circle, duration 10. -/
def av3 : Avistamiento :=
  ⟨⟨⟨2020, 1, 20⟩, 18, 45⟩, "r", "NV", "circle", 10, "c", ⟨3, 4⟩⟩

/-!
### General lemmas about the building blocks
-/

theorem DateTime.date_mono {s t : DateTime} (h : s ≤ t) : s.date ≤ t.date := by
  have h2 : DateTime.key s ≤ DateTime.key t := h
  rcases (Prod.Lex.le_iff _ _).1 h2 with h1 | ⟨h1, -⟩
  · exact le_of_lt h1
  · exact le_of_eq h1

theorem Avistamiento.fechahora_mono {a b : Avistamiento} (h : a ≤ b) :
    a.fechahora ≤ b.fechahora := by
  have h2 : Avistamiento.key a ≤ Avistamiento.key b := h
  rcases (Prod.Lex.le_iff _ _).1 h2 with h1 | ⟨h1, -⟩
  · exact le_of_lt h1
  · exact le_of_eq h1

theorem pymax_eq_none_iff {α β : Type} [LinearOrder β] (key : α → β)
    (l : List α) : pymax key l = none ↔ l = [] := by
  cases l <;> simp [pymax]

theorem pymax_foldl_mem {α β : Type} [LinearOrder β] (key : α → β) :
    ∀ (xs : List α) (c : α),
      xs.foldl (fun c a => if key c < key a then a else c) c = c ∨
      xs.foldl (fun c a => if key c < key a then a else c) c ∈ xs
  | [], c => Or.inl rfl
  | a :: xs, c => by
    rcases pymax_foldl_mem key xs (if key c < key a then a else c) with h | h
    · rw [List.foldl_cons, h]
      split
      · exact Or.inr (List.mem_cons_self _ _)
      · exact Or.inl rfl
    · exact Or.inr (List.mem_cons_of_mem _ (by simpa using h))

theorem pymax_mem {α β : Type} [LinearOrder β] {key : α → β} {l : List α}
    {a : α} (h : pymax key l = some a) : a ∈ l := by
  cases l with
  | nil => simp [pymax] at h
  | cons x xs =>
    simp only [pymax, Option.some.injEq] at h
    rcases pymax_foldl_mem key xs x with h2 | h2
    · rw [← h, h2]; exact List.mem_cons_self _ _
    · rw [← h]; exact List.mem_cons_of_mem _ h2

theorem pymax_foldl_isMax {α β : Type} [LinearOrder β] (key : α → β) :
    ∀ (xs : List α) (c : α),
      key c ≤ key (xs.foldl (fun c a => if key c < key a then a else c) c) ∧
      ∀ b ∈ xs, key b ≤ key (xs.foldl (fun c a => if key c < key a then a else c) c)
  | [], c => ⟨le_refl _, by simp⟩
  | a :: xs, c => by
    obtain ⟨h1, h2⟩ := pymax_foldl_isMax key xs (if key c < key a then a else c)
    have hc : key c ≤ key (if key c < key a then a else c) := by
      split
      · exact le_of_lt (by assumption)
      · exact le_refl _
    have ha : key a ≤ key (if key c < key a then a else c) := by
      split
      · exact le_refl _
      · exact le_of_not_lt (by assumption)
    refine ⟨le_trans hc h1, ?_⟩
    intro b hb
    rcases List.mem_cons.1 hb with rfl | hb
    · exact le_trans ha h1
    · exact h2 b hb

theorem pymax_isMax {α β : Type} [LinearOrder β] {key : α → β} {l : List α}
    {a : α} (h : pymax key l = some a) : ∀ b ∈ l, key b ≤ key a := by
  cases l with
  | nil => simp [pymax] at h
  | cons x xs =>
    simp only [pymax, Option.some.injEq] at h
    obtain ⟨h1, h2⟩ := pymax_foldl_isMax key xs x
    intro b hb
    rcases List.mem_cons.1 hb with rfl | hb
    · rw [← h]; exact h1
    · rw [← h]; exact h2 b hb

theorem findVal_dictUpdate_self {κ v : Type} [DecidableEq κ]
    (m : List (κ × v)) (k : κ) (d : v) (f : v → v) :
    findVal (dictUpdate m k d f) k = some (f ((findVal m k).getD d)) := by
  induction m with
  | nil => simp [dictUpdate, findVal]
  | cons p m ih =>
    obtain ⟨k1, v1⟩ := p
    by_cases h : k = k1
    · subst h; simp [dictUpdate, findVal]
    · simp [dictUpdate, findVal, h, ih]

theorem findVal_dictUpdate_ne {κ v : Type} [DecidableEq κ]
    (m : List (κ × v)) {k k1 : κ} (h : k ≠ k1) (d : v) (f : v → v) :
    findVal (dictUpdate m k1 d f) k = findVal m k := by
  induction m with
  | nil => simp [dictUpdate, findVal, h]
  | cons p m ih =>
    obtain ⟨k2, v2⟩ := p
    by_cases h2 : k1 = k2
    · subst h2; simp [dictUpdate, findVal, h]
    · by_cases h3 : k = k2 <;> simp [dictUpdate, findVal, h2, h3, ih]

theorem findVal_isSome_iff {κ v : Type} [DecidableEq κ]
    (m : List (κ × v)) (k : κ) :
    (findVal m k).isSome ↔ k ∈ m.map Prod.fst := by
  induction m with
  | nil => simp [findVal]
  | cons p m ih =>
    obtain ⟨k1, v1⟩ := p
    by_cases h : k = k1 <;> simp [findVal, h, ih]

theorem keys_dictUpdate {κ v : Type} [DecidableEq κ]
    (m : List (κ × v)) (k : κ) (d : v) (f : v → v) :
    (dictUpdate m k d f).map Prod.fst =
      if k ∈ m.map Prod.fst then m.map Prod.fst else m.map Prod.fst ++ [k] := by
  induction m with
  | nil => simp [dictUpdate]
  | cons p m ih =>
    obtain ⟨k1, v1⟩ := p
    by_cases h : k = k1
    · subst h; simp [dictUpdate]
    · simp only [dictUpdate, if_neg h, List.map_cons, List.mem_cons, ih]
      by_cases h2 : k ∈ m.map Prod.fst <;>
        simp [h2, h, fun hh : k = k1 => h hh]

theorem keys_nodup_dictUpdate {κ v : Type} [DecidableEq κ]
    {m : List (κ × v)} (hm : (m.map Prod.fst).Nodup) (k : κ) (d : v) (f : v → v) :
    ((dictUpdate m k d f).map Prod.fst).Nodup := by
  rw [keys_dictUpdate]
  split
  · exact hm
  · next h =>
    refine List.Nodup.append hm (List.nodup_singleton k) ?_
    intro a ha ha2
    rw [List.mem_singleton] at ha2
    subst ha2
    exact h ha

theorem mem_iff_findVal {κ v : Type} [DecidableEq κ]
    {m : List (κ × v)} (hm : (m.map Prod.fst).Nodup) (k : κ) (w : v) :
    (k, w) ∈ m ↔ findVal m k = some w := by
  induction m with
  | nil => simp [findVal]
  | cons p m ih =>
    obtain ⟨k1, v1⟩ := p
    simp only [List.map_cons, List.nodup_cons] at hm
    by_cases h : k = k1
    · subst h
      constructor
      · intro hmem
        rcases List.mem_cons.1 hmem with heq | hmem
        · have : w = v1 := congrArg Prod.snd heq
          subst this
          simp [findVal]
        · exact absurd (List.mem_map_of_mem Prod.fst hmem) hm.1
      · intro hf
        simp only [findVal, if_pos] at hf
        rw [Option.some.injEq] at hf
        rw [← hf]
        exact List.mem_cons_self _ _
    · simp only [findVal, if_neg h, List.mem_cons, Prod.mk.injEq]
      rw [← ih hm.2]
      constructor
      · rintro (⟨h1, -⟩ | hmem)
        · exact absurd h1 h
        · exact hmem
      · exact Or.inr

theorem findVal_pyDict_foldl {κ v : Type} [DecidableEq κ]
    (key : Avistamiento → κ) (init : v) (upd : Avistamiento → v → v) :
    ∀ (l : List Avistamiento) (m : List (κ × v)) (k : κ),
      findVal (l.foldl (fun m a => dictUpdate m (key a) init (upd a)) m) k =
        if k ∈ l.map key ∨ (findVal m k).isSome then
          some ((l.filter (fun a => decide (key a = k))).foldl
            (fun acc a => upd a acc) ((findVal m k).getD init))
        else none
  | [], m, k => by
    cases h : findVal m k <;> simp [h]
  | a :: l, m, k => by
    rw [List.foldl_cons, findVal_pyDict_foldl key init upd l]
    by_cases hk : key a = k
    · subst hk
      rw [findVal_dictUpdate_self]
      have h1 : (some (upd a ((findVal m (key a)).getD init))).isSome = true := rfl
      have hcond : key a ∈ (a :: l).map key ∨ (findVal m (key a)).isSome :=
        Or.inl (by simp)
      rw [if_pos (Or.inr h1), if_pos hcond]
      simp [List.filter_cons]
    · rw [findVal_dictUpdate_ne m (fun h => hk h.symm)]
      have hmem : (k ∈ (a :: l).map key ∨ (findVal m k).isSome) ↔
          (k ∈ l.map key ∨ (findVal m k).isSome) := by
        simp only [List.map_cons, List.mem_cons]
        constructor
        · intro h
          rcases h with h1 | h2
          · rcases h1 with h1 | h1
            · exact absurd h1.symm hk
            · exact Or.inl h1
          · exact Or.inr h2
        · intro h
          rcases h with h1 | h2
          · exact Or.inl (Or.inr h1)
          · exact Or.inr h2
      have hfil : (a :: l).filter (fun x => decide (key x = k)) =
          l.filter (fun x => decide (key x = k)) := by
        simp [List.filter_cons, hk]
      rw [hfil]
      exact if_congr hmem.symm rfl rfl

/-- Value characterisation for the dict-building loops: the value stored at
key `k` is the update function folded over the records with that key, in input
order, starting from the initial value. -/
theorem findVal_pyDict {κ v : Type} [DecidableEq κ]
    (key : Avistamiento → κ) (init : v) (upd : Avistamiento → v → v)
    (l : List Avistamiento) (k : κ) :
    findVal (pyDict key init upd l) k =
      if k ∈ l.map key then
        some ((l.filter (fun a => decide (key a = k))).foldl
          (fun acc a => upd a acc) init)
      else none := by
  rw [pyDict, findVal_pyDict_foldl]
  simp [findVal]

/-- Keys of a dict built by a grouping loop are exactly the key values
occurring in the input. -/
theorem pyDict_keys {κ v : Type} [DecidableEq κ]
    (key : Avistamiento → κ) (init : v) (upd : Avistamiento → v → v)
    (l : List Avistamiento) (k : κ) :
    k ∈ (pyDict key init upd l).map Prod.fst ↔ k ∈ l.map key := by
  rw [← findVal_isSome_iff, findVal_pyDict]
  by_cases h : k ∈ l.map key <;> simp [h]

theorem pyDict_keys_nodup {κ v : Type} [DecidableEq κ]
    (key : Avistamiento → κ) (init : v) (upd : Avistamiento → v → v)
    (l : List Avistamiento) :
    ((pyDict key init upd l).map Prod.fst).Nodup := by
  rw [pyDict]
  generalize hm : ([] : List (κ × v)) = m
  have hm2 : (m.map Prod.fst).Nodup := by rw [← hm]; simp
  clear hm
  induction l generalizing m with
  | nil => exact hm2
  | cons a l ih =>
    rw [List.foldl_cons]
    exact ih _ (keys_nodup_dictUpdate hm2 _ _ _)

/-- Membership in a dict built by a grouping loop, via the value
characterisation. -/
theorem pyDict_mem_iff {κ v : Type} [DecidableEq κ]
    (key : Avistamiento → κ) (init : v) (upd : Avistamiento → v → v)
    (l : List Avistamiento) (k : κ) (w : v) :
    (k, w) ∈ pyDict key init upd l ↔
      k ∈ l.map key ∧
        w = (l.filter (fun a => decide (key a = k))).foldl
          (fun acc a => upd a acc) init := by
  rw [mem_iff_findVal (pyDict_keys_nodup key init upd l), findVal_pyDict]
  by_cases h : k ∈ l.map key <;> simp [h, eq_comm]

theorem foldl_append_length :
    ∀ (xs : List Avistamiento) (init : List ℕ),
      xs.foldl (fun acc a => acc ++ [a.comentarios.length]) init =
        init ++ xs.map (fun a => a.comentarios.length)
  | [], init => by simp
  | a :: xs, init => by
    rw [List.foldl_cons, foldl_append_length xs]
    simp

theorem foldl_add_one {α : Type} :
    ∀ (xs : List α) (n : ℕ), xs.foldl (fun n _ => n + 1) n = n + xs.length
  | [], n => by simp
  | a :: xs, n => by
    rw [List.foldl_cons, foldl_add_one xs]
    simp [List.length_cons]
    omega

/-!
### Claim C1
-/

/-- Claim C1: whenever the eligible subset is empty, the extremal queries
`avistamiento_mayor_duracion` (maximum duration for a shape) and
`comentario_mas_largo` (longest comment for a year and case-insensitive
keyword) report the distinguishable no-result outcome `none` — the modelled
empty-selection error of Python `max` — and never silently return a default
value: any `some` answer is an eligible record maximising the key. -/
theorem extremal_queries_report_empty_selection (l : List Avistamiento)
    (forma : String) (anyo : ℤ) (palabra : String) :
    (avistamiento_mayor_duracion l forma = none ↔
      l.filter (fun a => a.forma = forma) = []) ∧
    (∀ a, avistamiento_mayor_duracion l forma = some a →
      a ∈ l ∧ a.forma = forma ∧
        ∀ b ∈ l, b.forma = forma → b.duracion ≤ a.duracion) ∧
    (comentario_mas_largo l anyo palabra = none ↔
      l.filter (fun a => decide (a.fechahora.date.year = anyo) &&
        contieneCI palabra a.comentarios) = []) ∧
    (∀ a, comentario_mas_largo l anyo palabra = some a →
      a ∈ l ∧ a.fechahora.date.year = anyo ∧
        contieneCI palabra a.comentarios = true ∧
        ∀ b ∈ l, b.fechahora.date.year = anyo →
          contieneCI palabra b.comentarios = true →
            b.comentarios.length ≤ a.comentarios.length) := by
  refine ⟨pymax_eq_none_iff _ _, ?_, pymax_eq_none_iff _ _, ?_⟩
  · intro a h
    have hmem := pymax_mem h
    rw [List.mem_filter] at hmem
    refine ⟨hmem.1, by simpa using hmem.2, ?_⟩
    intro b hb hbf
    exact pymax_isMax h b (List.mem_filter.2 ⟨hb, by simpa using hbf⟩)
  · intro a h
    have hmem := pymax_mem h
    rw [List.mem_filter] at hmem
    have h2 : a.fechahora.date.year = anyo ∧ contieneCI palabra a.comentarios = true := by
      simpa using hmem.2
    refine ⟨hmem.1, h2.1, h2.2, ?_⟩
    intro b hb hby hbc
    exact pymax_isMax h b (List.mem_filter.2 ⟨hb, by simp [hby, hbc]⟩)

/-- Witness for C1 at concrete inputs: empty selections give `none`; on a
nonempty selection the result is an eligible maximising record, not a
default. -/
theorem extremal_queries_report_empty_selection_witness :
    (avistamiento_mayor_duracion [av1, av2, av3] "disk" = none) ∧
    (av1 ∈ [av1, av2, av3] ∧ av1.forma = "circle" ∧
      ∀ b ∈ [av1, av2, av3], b.forma = "circle" → b.duracion ≤ av1.duracion) ∧
    (comentario_mas_largo [av1, av2, av3] 1999 "b" = none) := by
  refine ⟨?_, ?_, ?_⟩
  · exact (extremal_queries_report_empty_selection [av1, av2, av3] "disk" 1999 "b").1.mpr
      (by decide)
  · exact (extremal_queries_report_empty_selection [av1, av2, av3] "circle" 1999 "b").2.1
      av1 (by decide)
  · exact (extremal_queries_report_empty_selection [av1, av2, av3] "disk" 1999 "b").2.2.1.mpr
      (by decide)

/-!
### Claim C5
-/

theorem mem_cercanos_foldl (dist : Coordenadas → Coordenadas → ℚ)
    (u : Coordenadas) (r : ℚ) :
    ∀ (l : List Avistamiento) (s : Finset Avistamiento) (a : Avistamiento),
      (a ∈ l.foldl
          (fun res x => if dist x.ubicacion u < r then insert x res else res) s ↔
        a ∈ s ∨ (a ∈ l ∧ dist a.ubicacion u < r))
  | [], s, a => by simp
  | x :: l, s, a => by
    rw [List.foldl_cons, mem_cercanos_foldl dist u r l]
    by_cases hx : dist x.ubicacion u < r
    · rw [if_pos hx, Finset.mem_insert]
      constructor
      · rintro ((rfl | hs) | hl)
        · exact Or.inr ⟨List.mem_cons_self _ _, hx⟩
        · exact Or.inl hs
        · exact Or.inr ⟨List.mem_cons_of_mem _ hl.1, hl.2⟩
      · rintro (hs | ⟨hmem, hd⟩)
        · exact Or.inl (Or.inr hs)
        · rcases List.mem_cons.1 hmem with rfl | hmem
          · exact Or.inl (Or.inl rfl)
          · exact Or.inr ⟨hmem, hd⟩
    · rw [if_neg hx]
      constructor
      · rintro (hs | hl)
        · exact Or.inl hs
        · exact Or.inr ⟨List.mem_cons_of_mem _ hl.1, hl.2⟩
      · rintro (hs | ⟨hmem, hd⟩)
        · exact Or.inl hs
        · rcases List.mem_cons.1 hmem with rfl | hmem
          · exact absurd hd hx
          · exact Or.inr ⟨hmem, hd⟩

/-- Claim C5: for any metric, a record is in the set returned by
`avistamientos_cercanos_ubicacion` exactly when its location's distance to
the reference is strictly below the radius (set semantics); consequently the
result is monotone in the radius. -/
theorem cercanos_membership_and_monotone (dist : Coordenadas → Coordenadas → ℚ)
    (l : List Avistamiento) (u : Coordenadas) :
    (∀ (r : ℚ) (a : Avistamiento),
      a ∈ avistamientos_cercanos_ubicacion dist l u r ↔
        a ∈ l ∧ dist a.ubicacion u < r) ∧
    (∀ r1 r2 : ℚ, r1 < r2 →
      avistamientos_cercanos_ubicacion dist l u r1 ⊆
        avistamientos_cercanos_ubicacion dist l u r2) := by
  have hmem : ∀ (r : ℚ) (a : Avistamiento),
      a ∈ avistamientos_cercanos_ubicacion dist l u r ↔
        a ∈ l ∧ dist a.ubicacion u < r := by
    intro r a
    rw [avistamientos_cercanos_ubicacion, mem_cercanos_foldl]
    simp
  refine ⟨hmem, ?_⟩
  intro r1 r2 h12 a ha
  rw [hmem] at ha ⊢
  exact ⟨ha.1, lt_trans ha.2 h12⟩

/-- Witness for C5: a concrete monotonicity instance with radii 1 < 2. -/
theorem cercanos_membership_and_monotone_witness :
    avistamientos_cercanos_ubicacion distMan [av1, av2, av3] ⟨0, 0⟩ 1 ⊆
      avistamientos_cercanos_ubicacion distMan [av1, av2, av3] ⟨0, 0⟩ 2 :=
  (cercanos_membership_and_monotone distMan [av1, av2, av3] ⟨0, 0⟩).2 1 2
    (by norm_num)

/-!
### Claim C2
-/

theorem finset_max_eq_coe_iff {γ : Type} [LinearOrder γ] (s : Finset γ)
    (p : γ) : s.max = (p : WithBot γ) ↔ p ∈ s ∧ ∀ q ∈ s, q ≤ p := by
  constructor
  · intro h
    refine ⟨Finset.mem_of_max h, ?_⟩
    intro q hq
    exact WithBot.coe_le_coe.mp (le_trans (Finset.le_max hq) (le_of_eq h))
  · rintro ⟨hp, hb⟩
    obtain ⟨b, hbmax⟩ := Finset.max_of_nonempty ⟨p, hp⟩
    have h1 : b ≤ p := hb b (Finset.mem_of_max hbmax)
    have h2 : p ≤ b := WithBot.coe_le_coe.mp (le_trans (Finset.le_max hp) (le_of_eq hbmax))
    rw [hbmax, le_antisymm h1 h2]

/-- Claim C2: `avistamiento_cercano_mayor_duracion` returns the
lexicographically maximal `(duracion, comentarios)` pair — Python tuple
comparison, duration first then comments — over exactly the records whose
distance to the reference is strictly below the radius, and the sentinel
`None` when that selection is empty; the default radius is `0.5`. -/
theorem cercano_mayor_duracion_max_pair (dist : Coordenadas → Coordenadas → ℚ)
    (l : List Avistamiento) (c : Coordenadas) (r : ℚ) :
    (avistamiento_cercano_mayor_duracion dist l c r = ⊥ ↔
      ∀ a ∈ l, ¬ dist a.ubicacion c < r) ∧
    (∀ p : ℤ ×ₗ String,
      avistamiento_cercano_mayor_duracion dist l c r = (p : WithBot (ℤ ×ₗ String)) ↔
        ((∃ a, (a ∈ l ∧ dist a.ubicacion c < r) ∧
            toLex (a.duracion, a.comentarios) = p) ∧
          ∀ a ∈ l, dist a.ubicacion c < r →
            toLex (a.duracion, a.comentarios) ≤ p)) ∧
    avistamiento_cercano_mayor_duracion_default dist l c =
      avistamiento_cercano_mayor_duracion dist l c (1/2) := by
  have hmem := (cercanos_membership_and_monotone dist l c).1 r
  rw [avistamiento_cercano_mayor_duracion]
  by_cases hcard : 0 < (avistamientos_cercanos_ubicacion dist l c r).card
  · rw [if_pos hcard]
    have hne : (avistamientos_cercanos_ubicacion dist l c r).Nonempty :=
      Finset.card_pos.mp hcard
    refine ⟨?_, ?_, rfl⟩
    · rw [Finset.max_eq_bot]
      constructor
      · intro h
        obtain ⟨a, ha⟩ := hne
        exact absurd (Finset.mem_image_of_mem _ ha)
          (by rw [h]; exact Finset.not_mem_empty _)
      · intro h
        obtain ⟨a, ha⟩ := hne
        have := (hmem a).1 ha
        exact absurd this.2 (h a this.1)
    · intro p
      rw [finset_max_eq_coe_iff]
      constructor
      · rintro ⟨hp, hb⟩
        obtain ⟨a, ha, hfa⟩ := Finset.mem_image.1 hp
        have ha2 := (hmem a).1 ha
        refine ⟨⟨a, ha2, hfa⟩, ?_⟩
        intro b hbl hbd
        exact hb _ (Finset.mem_image_of_mem _ ((hmem b).2 ⟨hbl, hbd⟩))
      · rintro ⟨⟨a, ha, hfa⟩, hb⟩
        refine ⟨Finset.mem_image.2 ⟨a, (hmem a).2 ha, hfa⟩, ?_⟩
        intro q hq
        obtain ⟨b, hbmem, rfl⟩ := Finset.mem_image.1 hq
        have hb2 := (hmem b).1 hbmem
        exact hb b hb2.1 hb2.2
  · rw [if_neg hcard]
    have hempty : avistamientos_cercanos_ubicacion dist l c r = ∅ := by
      rw [← Finset.card_eq_zero]
      omega
    refine ⟨?_, ?_, rfl⟩
    · simp only [true_iff]
      intro a hal had
      have : a ∈ avistamientos_cercanos_ubicacion dist l c r := (hmem a).2 ⟨hal, had⟩
      rw [hempty] at this
      exact Finset.not_mem_empty _ this
    · intro p
      constructor
      · intro h
        exact absurd h (by simp)
      · rintro ⟨⟨a, ha, -⟩, -⟩
        have : a ∈ avistamientos_cercanos_ubicacion dist l c r := (hmem a).2 ha
        rw [hempty] at this
        exact absurd this (Finset.not_mem_empty _)

/-- Witness for C2 at concrete inputs: among the two records within radius 2
of the origin the maximal pair is `(30, "aa")`, and an out-of-range radius
selection yields the sentinel. -/
theorem cercano_mayor_duracion_max_pair_witness :
    avistamiento_cercano_mayor_duracion distMan [av1, av2, av3] ⟨0, 0⟩ 2 =
      ((toLex ((30 : ℤ), "aa") : ℤ ×ₗ String) : WithBot (ℤ ×ₗ String)) ∧
    avistamiento_cercano_mayor_duracion distMan [av1, av2, av3] ⟨0, 0⟩ 0 = ⊥ := by
  constructor
  · refine ((cercano_mayor_duracion_max_pair distMan [av1, av2, av3] ⟨0, 0⟩ 2).2.1
      (toLex ((30 : ℤ), "aa"))).mpr ⟨⟨av1, ⟨by simp, ?_⟩, rfl⟩, ?_⟩
    · show distMan av1.ubicacion ⟨0, 0⟩ < 2
      norm_num [distMan, av1]
    · intro a ha hd
      rcases List.mem_cons.1 ha with rfl | ha
      · exact le_refl _
      rcases List.mem_cons.1 ha with rfl | ha
      · rw [Prod.Lex.le_iff]
        exact Or.inl (by norm_num [av1, av2])
      rcases List.mem_cons.1 ha with rfl | ha
      · rw [Prod.Lex.le_iff]
        exact Or.inl (by norm_num [av1, av3])
      · exact absurd ha (List.not_mem_nil a)
  · refine ((cercano_mayor_duracion_max_pair distMan [av1, av2, av3] ⟨0, 0⟩ 0).1).mpr ?_
    intro a ha
    have hnn : 0 ≤ distMan a.ubicacion ⟨0, 0⟩ := by
      have h1 : (0:ℚ) ≤ |a.ubicacion.latitud - 0| := abs_nonneg _
      have h2 : (0:ℚ) ≤ |a.ubicacion.longitud - 0| := abs_nonneg _
      simp only [distMan]
      linarith
    exact not_lt_of_le hnn

/-!
### Claim C3
-/

theorem descFechahora_trans (a b c : Avistamiento) :
    descFechahora a b → descFechahora b c → descFechahora a c := by
  simp only [descFechahora, decide_eq_true_eq]
  exact fun h1 h2 => le_trans h2 h1

theorem descFechahora_total (a b : Avistamiento) :
    descFechahora a b || descFechahora b a := by
  simp only [descFechahora, Bool.or_eq_true, decide_eq_true_eq]
  exact le_total b.fechahora a.fechahora

/-- Claim C3: `avistamientos_fechas` keeps exactly the records whose calendar
date lies in the inclusive optional range (a `none` bound is unbounded, two
`none` bounds keep everything), sorted by full timestamp descending, and the
sort is stable: records with equal timestamps keep their original encounter
order. -/
theorem avistamientos_fechas_range_sorted_stable (l : List Avistamiento)
    (fi ff : Option Date) :
    (∀ a, enRango fi ff a = true ↔
      ((∀ d, fi = some d → d ≤ a.fechahora.date) ∧
       (∀ d, ff = some d → a.fechahora.date ≤ d))) ∧
    ((avistamientos_fechas l fi ff).Perm (l.filter (enRango fi ff))) ∧
    (∀ a, a ∈ avistamientos_fechas l fi ff ↔ a ∈ l ∧ enRango fi ff a = true) ∧
    ((avistamientos_fechas l fi ff).Pairwise
      (fun a b => b.fechahora ≤ a.fechahora)) ∧
    (∀ t : DateTime,
      (avistamientos_fechas l fi ff).filter (fun a => decide (a.fechahora = t)) =
        (l.filter (enRango fi ff)).filter (fun a => decide (a.fechahora = t))) ∧
    ((avistamientos_fechas l none none).Perm l) := by
  have hperm : (avistamientos_fechas l fi ff).Perm (l.filter (enRango fi ff)) :=
    List.mergeSort_perm _ _
  refine ⟨?_, hperm, ?_, ?_, ?_, ?_⟩
  · intro a
    cases fi <;> cases ff <;> simp [enRango]
  · intro a
    rw [hperm.mem_iff, List.mem_filter]
  · have hs := List.sorted_mergeSort descFechahora_trans descFechahora_total
      (l.filter (enRango fi ff))
    exact hs.imp (by simp [descFechahora])
  · intro t
    have hcP : ((l.filter (enRango fi ff)).filter
        (fun a => decide (a.fechahora = t))).Pairwise
          (fun a b => descFechahora a b = true) := by
      apply List.pairwise_of_forall_mem_list
      intro a ha b hb
      rw [List.mem_filter, decide_eq_true_eq] at ha hb
      simp [descFechahora, ha.2, hb.2]
    have hsub : List.Sublist
        ((l.filter (enRango fi ff)).filter (fun a => decide (a.fechahora = t)))
        (avistamientos_fechas l fi ff) :=
      List.sublist_mergeSort descFechahora_trans descFechahora_total hcP
        (List.filter_sublist _)
    have hstep := hsub.filter (fun a => decide (a.fechahora = t))
    have hself : ((l.filter (enRango fi ff)).filter
        (fun a => decide (a.fechahora = t))).filter
          (fun a => decide (a.fechahora = t)) =
        (l.filter (enRango fi ff)).filter (fun a => decide (a.fechahora = t)) :=
      List.filter_eq_self.2 (fun a ha => (List.mem_filter.1 ha).2)
    rw [hself] at hstep
    have hlen : ((avistamientos_fechas l fi ff).filter
        (fun a => decide (a.fechahora = t))).length =
        ((l.filter (enRango fi ff)).filter
          (fun a => decide (a.fechahora = t))).length :=
      (hperm.filter _).length_eq
    exact (hstep.eq_of_length hlen.symm).symm
  · have h1 : l.filter (enRango none none) = l :=
      List.filter_eq_self.2 (fun a _ => rfl)
    have h2 : (avistamientos_fechas l none none).Perm (l.filter (enRango none none)) :=
      List.mergeSort_perm _ _
    rwa [h1] at h2

/-- Witness for C3 at concrete inputs: membership through the range test. -/
theorem avistamientos_fechas_range_sorted_stable_witness :
    av1 ∈ avistamientos_fechas [av3, av1, av2] none none ∧
    av2 ∈ avistamientos_fechas [av3, av1, av2] (some ⟨2020, 1, 5⟩) none ∧
    ¬ av1 ∈ avistamientos_fechas [av3, av1, av2] (some ⟨2020, 1, 5⟩) none := by
  refine ⟨?_, ?_, ?_⟩
  · exact ((avistamientos_fechas_range_sorted_stable [av3, av1, av2]
      none none).2.2.1 av1).mpr (by decide)
  · exact ((avistamientos_fechas_range_sorted_stable [av3, av1, av2]
      (some ⟨2020, 1, 5⟩) none).2.2.1 av2).mpr (by decide)
  · intro h
    have h2 := ((avistamientos_fechas_range_sorted_stable [av3, av1, av2]
      (some ⟨2020, 1, 5⟩) none).2.2.1 av1).mp h
    revert h2
    decide

/-!
### Claim C4
-/

theorem ascRecord_trans (a b c : Avistamiento) :
    ascRecord a b → ascRecord b c → ascRecord a c := by
  simp only [ascRecord, decide_eq_true_eq]
  exact le_trans

theorem ascRecord_total (a b : Avistamiento) : ascRecord a b || ascRecord b a := by
  simp only [ascRecord, Bool.or_eq_true, decide_eq_true_eq]
  exact le_total a b

theorem ascFechahora_trans (a b c : Avistamiento) :
    ascFechahora a b → ascFechahora b c → ascFechahora a c := by
  simp only [ascFechahora, decide_eq_true_eq]
  exact le_trans

theorem ascFechahora_total (a b : Avistamiento) :
    ascFechahora a b || ascFechahora b a := by
  simp only [ascFechahora, Bool.or_eq_true, decide_eq_true_eq]
  exact le_total a.fechahora b.fechahora

/-- Sorting by the full record tuple and sorting by timestamp alone produce
the same sequence of calendar dates: both are sorted rearrangements of the
same date multiset. -/
theorem mergeSort_map_date_eq (la : List Avistamiento) :
    (la.mergeSort ascRecord).map (fun a => a.fechahora.date) =
      (la.mergeSort ascFechahora).map (fun a => a.fechahora.date) := by
  apply List.eq_of_perm_of_sorted (r := fun d e : Date => d ≤ e)
  · exact ((List.mergeSort_perm la ascRecord).map _).trans
      ((List.mergeSort_perm la ascFechahora).map _).symm
  · rw [List.Sorted, List.pairwise_map]
    have hs := List.sorted_mergeSort ascRecord_trans ascRecord_total la
    exact hs.imp (fun h => DateTime.date_mono (Avistamiento.fechahora_mono
      (by simpa [ascRecord] using h)))
  · rw [List.Sorted, List.pairwise_map]
    have hs := List.sorted_mergeSort ascFechahora_trans ascFechahora_total la
    exact hs.imp (fun h => DateTime.date_mono (by simpa [ascFechahora] using h))

theorem consecDiffs_length (xs : List ℤ) :
    (consecDiffs xs).length = xs.length - 1 := by
  cases xs with
  | nil => simp [consecDiffs]
  | cons x xs =>
    simp [consecDiffs, List.length_zip]

/-- Claim C4: `media_dias_entre_avistamientos` equals the spec description —
the arithmetic mean of the day-differences of the calendar dates of
chronologically consecutive records of the (optionally year-restricted)
subset, sorted ascending by timestamp — and returns `none` exactly when fewer
than two records are available; the three sample records dated 2020-01-01,
2020-01-10 and 2020-01-20 give 9.5. -/
theorem media_dias_matches_spec (l : List Avistamiento) (anyo : Option ℤ) :
    (media_dias_entre_avistamientos l anyo =
      media_dias_entre_avistamientos_spec l anyo) ∧
    (media_dias_entre_avistamientos l anyo = none ↔
      (seleccion_anyo l anyo).length < 2) ∧
    media_dias_entre_avistamientos [av1, av2, av3] none = some (19/2) := by
  refine ⟨?_, ?_, ?_⟩
  · have h2 : ((seleccion_anyo l anyo).mergeSort ascRecord).map
        (fun a => a.fechahora.date.toOrdinal) =
        ((seleccion_anyo l anyo).mergeSort ascFechahora).map
          (fun a => a.fechahora.date.toOrdinal) := by
      have h3 := congrArg (List.map Date.toOrdinal)
        (mergeSort_map_date_eq (seleccion_anyo l anyo))
      simpa [List.map_map, Function.comp] using h3
    rw [media_dias_entre_avistamientos, media_dias_entre_avistamientos_spec, h2]
  · have hL : (consecDiffs (((seleccion_anyo l anyo).mergeSort ascRecord).map
        (fun a => a.fechahora.date.toOrdinal))).length =
        (seleccion_anyo l anyo).length - 1 := by
      rw [consecDiffs_length]
      simp
    rw [media_dias_entre_avistamientos]
    by_cases hpos : 0 < (consecDiffs (((seleccion_anyo l anyo).mergeSort
        ascRecord).map (fun a => a.fechahora.date.toOrdinal))).length
    · rw [if_pos hpos]
      simp only [reduceCtorEq, false_iff, not_lt]
      omega
    · rw [if_neg hpos]
      simp only [true_iff]
      omega
  · have hsort : ([av1, av2, av3] : List Avistamiento).mergeSort ascRecord =
        [av1, av2, av3] :=
      List.mergeSort_of_sorted (by decide)
    have hdias : consecDiffs (([av1, av2, av3] : List Avistamiento).map
        (fun a => a.fechahora.date.toOrdinal)) = [9, 10] := by decide
    rw [media_dias_entre_avistamientos]
    simp only [seleccion_anyo]
    rw [hsort, hdias]
    norm_num

/-- Witness for C4 on concrete inputs: a no-result case with a single record
of the requested year. -/
theorem media_dias_matches_spec_witness :
    media_dias_entre_avistamientos [av1, av2, av3] none = some (19/2) ∧
    media_dias_entre_avistamientos [av3] none = none := by
  constructor
  · exact (media_dias_matches_spec [av1, av2, av3] none).2.2
  · exact (media_dias_matches_spec [av3] none).2.1.mpr (by decide)

/-!
### Claim C6
-/

theorem descDuracion_trans (a b c : Avistamiento) :
    descDuracion a b → descDuracion b c → descDuracion a c := by
  simp only [descDuracion, decide_eq_true_eq]
  exact fun h1 h2 => le_trans h2 h1

theorem descDuracion_total (a b : Avistamiento) :
    descDuracion a b || descDuracion b a := by
  simp only [descDuracion, Bool.or_eq_true, decide_eq_true_eq]
  exact le_total b.duracion a.duracion

/-- Stability of a stable sort, phrased through filters: elements that are
pairwise tied under the comparison keep their relative input order. -/
theorem mergeSort_filter_stable {le : Avistamiento → Avistamiento → Bool}
    (htrans : ∀ a b c, le a b → le b c → le a c)
    (htotal : ∀ a b, le a b || le b a)
    (p : Avistamiento → Bool) (F : List Avistamiento)
    (hp : ∀ a b, p a = true → p b = true → le a b = true) :
    (F.mergeSort le).filter p = F.filter p := by
  have hcP : (F.filter p).Pairwise (fun a b => le a b = true) := by
    apply List.pairwise_of_forall_mem_list
    intro a ha b hb
    rw [List.mem_filter] at ha hb
    exact hp a b ha.2 hb.2
  have hsub : List.Sublist (F.filter p) (F.mergeSort le) :=
    List.sublist_mergeSort htrans htotal hcP (List.filter_sublist _)
  have hstep := hsub.filter p
  have hself : (F.filter p).filter p = F.filter p :=
    List.filter_eq_self.2 (fun a ha => (List.mem_filter.1 ha).2)
  rw [hself] at hstep
  have hlen : ((F.mergeSort le).filter p).length = (F.filter p).length :=
    ((List.mergeSort_perm F le).filter _).length_eq
  exact (hstep.eq_of_length hlen.symm).symm

theorem foldl_append_id :
    ∀ (xs : List Avistamiento) (init : List Avistamiento),
      xs.foldl (fun acc a => acc ++ [a]) init = init ++ xs
  | [], init => by simp
  | a :: xs, init => by
    rw [List.foldl_cons, foldl_append_id xs]
    simp

/-- Membership characterisation of the grouping dict of §4.9/§4.13: the group
of a state is the input subsequence of its records. -/
theorem agrupa_por_estado_mem (l : List Avistamiento) (e : String)
    (g : List Avistamiento) :
    (e, g) ∈ agrupa_por_estado l ↔
      e ∈ l.map (fun a => a.estado) ∧
        g = l.filter (fun a => decide (a.estado = e)) := by
  rw [agrupa_por_estado, pyDict_mem_iff, foldl_append_id, List.nil_append]

/-- Claim C6: every per-state list produced by
`avistamientos_mayor_duracion_por_estado` has at most `n` records, all of
that state, sorted by duration descending, and records of equal duration
keep their original relative input order (stable tie-break); the default is
`n = 3`. -/
theorem top_n_por_estado_spec (l : List Avistamiento) (n : ℕ) :
    (∀ e v, (e, v) ∈ avistamientos_mayor_duracion_por_estado l n →
      v.length ≤ n ∧
      (∀ a ∈ v, a.estado = e) ∧
      v.Pairwise (fun a b => b.duracion ≤ a.duracion) ∧
      (∀ d : ℤ, ∃ rest,
        (l.filter (fun a => decide (a.estado = e))).filter
            (fun a => decide (a.duracion = d)) =
          v.filter (fun a => decide (a.duracion = d)) ++ rest)) ∧
    avistamientos_mayor_duracion_por_estado_default l =
      avistamientos_mayor_duracion_por_estado l 3 := by
  refine ⟨?_, rfl⟩
  intro e v hmem
  rw [avistamientos_mayor_duracion_por_estado, List.mem_map] at hmem
  obtain ⟨⟨e2, g⟩, hg, heq⟩ := hmem
  obtain ⟨rfl, rfl⟩ : e2 = e ∧ (g.mergeSort descDuracion).take n = v := by
    constructor
    · exact congrArg Prod.fst heq
    · exact congrArg Prod.snd heq
  rw [agrupa_por_estado_mem] at hg
  obtain ⟨-, rfl⟩ := hg
  set G := l.filter (fun a => decide (a.estado = e2)) with hG
  refine ⟨List.length_take_le _ _, ?_, ?_, ?_⟩
  · intro a ha
    have h1 : a ∈ G.mergeSort descDuracion := List.take_subset _ _ ha
    rw [List.mem_mergeSort, hG, List.mem_filter, decide_eq_true_eq] at h1
    exact h1.2
  · have hs := List.sorted_mergeSort descDuracion_trans descDuracion_total G
    have hs2 := hs.sublist (List.take_sublist n _)
    exact hs2.imp (by simp [descDuracion])
  · intro d
    have hstab : (G.mergeSort descDuracion).filter
        (fun a => decide (a.duracion = d)) =
        G.filter (fun a => decide (a.duracion = d)) := by
      apply mergeSort_filter_stable descDuracion_trans descDuracion_total
      intro a b ha hb
      rw [decide_eq_true_eq] at ha hb
      simp [descDuracion, ha, hb]
    refine ⟨((G.mergeSort descDuracion).drop n).filter
      (fun a => decide (a.duracion = d)), ?_⟩
    rw [← hstab]
    rw [← List.filter_append, List.take_append_drop]

/-- Witness for C6 at concrete inputs: the CA group of the sample data is
returned full (two records, at most three), in state CA, sorted by duration
descending. -/
theorem top_n_por_estado_spec_witness :
    [av1, av2].length ≤ 3 ∧
    (∀ a ∈ [av1, av2], a.estado = "CA") ∧
    ([av1, av2] : List Avistamiento).Pairwise
      (fun a b => b.duracion ≤ a.duracion) := by
  have h1 : agrupa_por_estado [av1, av2, av3] =
      [("CA", [av1, av2]), ("NV", [av3])] := by decide
  have h2 : ([av1, av2] : List Avistamiento).mergeSort descDuracion =
      [av1, av2] :=
    List.mergeSort_of_sorted (by decide)
  have h3 : ([av3] : List Avistamiento).mergeSort descDuracion = [av3] :=
    List.mergeSort_of_sorted (by decide)
  have hres : avistamientos_mayor_duracion_por_estado [av1, av2, av3] 3 =
      [("CA", [av1, av2]), ("NV", [av3])] := by
    rw [avistamientos_mayor_duracion_por_estado, h1]
    simp [h2, h3]
  have hmem : ("CA", [av1, av2]) ∈
      avistamientos_mayor_duracion_por_estado [av1, av2, av3] 3 := by
    rw [hres]
    exact List.mem_cons_self _ _
  obtain ⟨ha, hb, hc, -⟩ :=
    (top_n_por_estado_spec [av1, av2, av3] 3).1 "CA" [av1, av2] hmem
  exact ⟨ha, hb, hc⟩

/-!
### Claim C7
-/

theorem sumVals_dictUpdate_count {κ : Type} [DecidableEq κ]
    (m : List (κ × ℕ)) (k : κ) :
    ((dictUpdate m k 0 (fun n => n + 1)).map (fun p => p.2)).sum =
      ((m.map (fun p => p.2)).sum) + 1 := by
  induction m with
  | nil => simp [dictUpdate]
  | cons p m ih =>
    obtain ⟨k1, v1⟩ := p
    by_cases h : k = k1
    · subst h
      simp [dictUpdate]
      omega
    · simp [dictUpdate, h, ih]
      omega

theorem pyDict_count_sum_aux {κ : Type} [DecidableEq κ]
    (key : Avistamiento → κ) :
    ∀ (l : List Avistamiento) (m : List (κ × ℕ)),
      (((l.foldl (fun m a => dictUpdate m (key a) 0 (fun n => n + 1)) m)).map
        (fun p => p.2)).sum = ((m.map (fun p => p.2)).sum) + l.length
  | [], m => by simp
  | a :: l, m => by
    rw [List.foldl_cons, pyDict_count_sum_aux key l, sumVals_dictUpdate_count]
    simp [List.length_cons]
    omega

/-- Counting dictionaries: the values sum to the number of counted records. -/
theorem pyDict_count_sum {κ : Type} [DecidableEq κ] (key : Avistamiento → κ)
    (l : List Avistamiento) :
    ((pyDict key 0 (fun _ n => n + 1) l).map (fun p => p.2)).sum = l.length := by
  rw [pyDict]
  have h := pyDict_count_sum_aux key l []
  simpa using h

theorem sum_map_mul_div {κ : Type} (xs : List (κ × ℕ)) (T : ℚ) :
    (xs.map (fun p => 100 * (p.2 : ℚ) / T)).sum =
      100 * (((xs.map (fun p => p.2)).sum : ℕ) : ℚ) / T := by
  induction xs with
  | nil => simp
  | cons p xs ih =>
    simp only [List.map_cons, List.sum_cons, ih]
    push_cast
    ring

/-- Claim C7: whenever the relevant population is nonempty, the
percentage-by-shape values sum to exactly 100 in rational arithmetic — for
the year-restricted variant the total is the number of records of that year,
not the global total. -/
theorem porc_por_forma_sums_100 (l : List Avistamiento) :
    (l ≠ [] → ((porc_avistamientos_por_forma l).map (fun p => p.2)).sum = 100) ∧
    (∀ anyo : ℤ,
      l.filter (fun a => decide (a.fechahora.date.year = anyo)) ≠ [] →
        ((porc_avistamientos_por_forma_anyo l anyo).map (fun p => p.2)).sum = 100) := by
  constructor
  · intro hne
    have hlen : ((l.length : ℕ) : ℚ) ≠ 0 := by
      rw [Nat.cast_ne_zero]
      simpa [List.length_eq_zero] using hne
    rw [porc_avistamientos_por_forma, List.map_map]
    have h1 : ((fun p : String × ℚ => p.2) ∘
        (fun p : String × ℕ => (p.1, 100 * (p.2 : ℚ) / (l.length : ℚ)))) =
        fun p : String × ℕ => 100 * (p.2 : ℚ) / (l.length : ℚ) := rfl
    rw [h1, sum_map_mul_div, conteo_por_formas, pyDict_count_sum,
      mul_div_assoc, div_self hlen, mul_one]
  · intro anyo hne
    have hsum : (((conteo_por_formas (l.filter
        (fun a => decide (a.fechahora.date.year = anyo)))).map
          (fun p => p.2)).sum : ℕ) =
        (l.filter (fun a => decide (a.fechahora.date.year = anyo))).length := by
      rw [conteo_por_formas, pyDict_count_sum]
    have hlen : ((((conteo_por_formas (l.filter
        (fun a => decide (a.fechahora.date.year = anyo)))).map
          (fun p => p.2)).sum : ℕ) : ℚ) ≠ 0 := by
      rw [Nat.cast_ne_zero, hsum]
      simpa [List.length_eq_zero] using hne
    simp only [porc_avistamientos_por_forma_anyo]
    rw [List.map_map]
    have h1 : ((fun p : String × ℚ => p.2) ∘
        (fun p : String × ℕ => (p.1, 100 * (p.2 : ℚ) /
          (((((conteo_por_formas (l.filter
            (fun a => decide (a.fechahora.date.year = anyo)))).map
              (fun p => p.2)).sum : ℕ)) : ℚ)))) =
        fun p : String × ℕ => 100 * (p.2 : ℚ) /
          (((((conteo_por_formas (l.filter
            (fun a => decide (a.fechahora.date.year = anyo)))).map
              (fun p => p.2)).sum : ℕ)) : ℚ) := rfl
    rw [h1, sum_map_mul_div, mul_div_assoc, div_self hlen, mul_one]

/-- Witness for C7 on the sample data: both the global and the 2020-restricted
percentage tables sum to 100. -/
theorem porc_por_forma_sums_100_witness :
    ((porc_avistamientos_por_forma [av1, av2, av3]).map (fun p => p.2)).sum = 100 ∧
    ((porc_avistamientos_por_forma_anyo [av1, av2, av3] 2020).map
      (fun p => p.2)).sum = 100 := by
  constructor
  · exact (porc_por_forma_sums_100 [av1, av2, av3]).1 (by simp)
  · exact (porc_por_forma_sums_100 [av1, av2, av3]).2 2020 (by decide)

/-!
### Claim C8
-/

theorem mapM_option_isSome {α β : Type} (f : α → Option β) :
    ∀ (xs : List α), (∀ x ∈ xs, (f x).isSome) → (xs.mapM f).isSome
  | [], _ => rfl
  | a :: xs, h => by
    rw [List.mapM_cons]
    obtain ⟨b, hb⟩ := Option.isSome_iff_exists.1 (h a (List.mem_cons_self _ _))
    obtain ⟨bs, hbs⟩ := Option.isSome_iff_exists.1
      (mapM_option_isSome f xs (fun x hx => h x (List.mem_cons_of_mem _ hx)))
    rw [hb, hbs]
    simp

/-- Membership characterisation of the comment-length grouping of §4.7: each
state maps to the lengths of the comments of its (at least one) records. -/
theorem longitudes_por_estado_mem (l : List Avistamiento) (e : String)
    (ls : List ℕ) (h : (e, ls) ∈ longitudes_comentarios_por_estado l) :
    ls = (l.filter (fun a => decide (a.estado = e))).map
        (fun a => a.comentarios.length) ∧
      l.filter (fun a => decide (a.estado = e)) ≠ [] := by
  rw [longitudes_comentarios_por_estado, pyDict_mem_iff] at h
  obtain ⟨h1, h2⟩ := h
  rw [foldl_append_length, List.nil_append] at h2
  refine ⟨h2, ?_⟩
  rw [List.mem_map] at h1
  obtain ⟨a, ha, rfl⟩ := h1
  exact List.ne_nil_of_mem (List.mem_filter.2 ⟨ha, by simp⟩)

/-- Claim C8: the two computations that divide — percentage-by-shape over the
input length and mean comment length over a group size — never reach a
division by zero (their `pydiv`-instrumented versions always return `some`),
and on the empty record list the percentage computation reports the defined
empty mapping rather than crashing. -/
theorem division_by_zero_guarded (l : List Avistamiento) :
    (porc_avistamientos_por_forma_checked l).isSome = true ∧
    porc_avistamientos_por_forma_checked [] = some [] ∧
    (longitud_media_comentarios_por_estado_checked l).isSome = true ∧
    longitud_media_comentarios_por_estado_checked [] = some [] := by
  refine ⟨?_, rfl, ?_, rfl⟩
  · rw [porc_avistamientos_por_forma_checked]
    cases hl : l with
    | nil => rfl
    | cons x xs =>
      apply mapM_option_isSome
      intro p hp
      have hlen : ((l.length : ℕ) : ℚ) ≠ 0 := by
        rw [Nat.cast_ne_zero, hl]
        simp
      rw [← hl]
      simp [pydiv, hlen]
  · rw [longitud_media_comentarios_por_estado_checked]
    apply mapM_option_isSome
    intro p hp
    obtain ⟨hls, hne⟩ := longitudes_por_estado_mem l p.1 p.2 hp
    have hlen : ((p.2.length : ℕ) : ℚ) ≠ 0 := by
      rw [Nat.cast_ne_zero, hls]
      simpa [List.length_eq_zero] using hne
    simp [pydiv, hlen]

/-!
### Claim C10
-/

theorem mem_foldl_insert :
    ∀ (xs : List Avistamiento) (s : Finset Avistamiento) (x : Avistamiento),
      (x ∈ xs.foldl (fun acc a => insert a acc) s ↔ x ∈ xs ∨ x ∈ s)
  | [], s, x => by simp
  | a :: xs, s, x => by
    rw [List.foldl_cons, mem_foldl_insert xs]
    simp only [Finset.mem_insert, List.mem_cons]
    constructor
    · rintro (h | (rfl | h))
      · exact Or.inl (Or.inr h)
      · exact Or.inl (Or.inl rfl)
      · exact Or.inr h
    · rintro ((rfl | h) | h)
      · exact Or.inr (Or.inl rfl)
      · exact Or.inl h
      · exact Or.inr (Or.inr h)

theorem keys_map_snd {κ v w : Type} (g : κ × v → w) (m : List (κ × v)) :
    (m.map (fun p => (p.1, g p))).map Prod.fst = m.map Prod.fst := by
  rw [List.map_map]
  rfl

/-- Claim C10: each grouping mapping (records per date, counts per year, mean
comment length per state, top-n per state, most recent timestamp per state)
has as key set exactly the key values occurring in the input, no key maps to
an empty group or a default value, and the empty input yields the empty
mapping. -/
theorem grouping_keys_exact (l : List Avistamiento) :
    (∀ d : Date, d ∈ (avistamientos_por_fecha l).map Prod.fst ↔
      d ∈ l.map (fun a => a.fechahora.date)) ∧
    (∀ d s, (d, s) ∈ avistamientos_por_fecha l → s.Nonempty) ∧
    (avistamientos_por_fecha [] = []) ∧
    (∀ y : ℤ, y ∈ (numero_avistamientos_por_anyo l).map Prod.fst ↔
      y ∈ l.map (fun a => a.fechahora.date.year)) ∧
    (∀ y n, (y, n) ∈ numero_avistamientos_por_anyo l → 1 ≤ n) ∧
    (numero_avistamientos_por_anyo [] = []) ∧
    (∀ e : String, e ∈ (longitud_media_comentarios_por_estado l).map Prod.fst ↔
      e ∈ l.map (fun a => a.estado)) ∧
    (longitud_media_comentarios_por_estado [] = []) ∧
    (∀ (n : ℕ) (e : String),
      e ∈ (avistamientos_mayor_duracion_por_estado l n).map Prod.fst ↔
        e ∈ l.map (fun a => a.estado)) ∧
    (∀ e v, (e, v) ∈ avistamientos_mayor_duracion_por_estado_default l → v ≠ []) ∧
    (∀ n, avistamientos_mayor_duracion_por_estado [] n = []) ∧
    (∀ e : String, e ∈ (avistamiento_mas_reciente_por_estado l).map Prod.fst ↔
      e ∈ l.map (fun a => a.estado)) ∧
    (∀ e t, (e, t) ∈ avistamiento_mas_reciente_por_estado l → t ≠ none) ∧
    (avistamiento_mas_reciente_por_estado [] = []) := by
  refine ⟨fun d => pyDict_keys _ _ _ l d, ?_, rfl,
    fun y => pyDict_keys _ _ _ l y, ?_, rfl,
    ?_, rfl, ?_, ?_, fun n => rfl, ?_, ?_, rfl⟩
  · intro d s hmem
    rw [avistamientos_por_fecha, pyDict_mem_iff] at hmem
    obtain ⟨h1, h2⟩ := hmem
    rw [List.mem_map] at h1
    obtain ⟨a, ha, rfl⟩ := h1
    have haf : a ∈ l.filter (fun x => decide (x.fechahora.date = a.fechahora.date)) :=
      List.mem_filter.2 ⟨ha, by simp⟩
    refine ⟨a, ?_⟩
    rw [h2, mem_foldl_insert]
    exact Or.inl haf
  · intro y n hmem
    rw [numero_avistamientos_por_anyo, pyDict_mem_iff] at hmem
    obtain ⟨h1, h2⟩ := hmem
    rw [List.mem_map] at h1
    obtain ⟨a, ha, rfl⟩ := h1
    have haf : a ∈ l.filter
        (fun x => decide (x.fechahora.date.year = a.fechahora.date.year)) :=
      List.mem_filter.2 ⟨ha, by simp⟩
    rw [h2, foldl_add_one]
    have := List.length_pos.2 (List.ne_nil_of_mem haf)
    omega
  · intro e
    rw [longitud_media_comentarios_por_estado, keys_map_snd,
      longitudes_comentarios_por_estado, pyDict_keys]
  · intro n e
    rw [avistamientos_mayor_duracion_por_estado, keys_map_snd,
      agrupa_por_estado, pyDict_keys]
  · intro e v hmem
    rw [avistamientos_mayor_duracion_por_estado_default,
      avistamientos_mayor_duracion_por_estado, List.mem_map] at hmem
    obtain ⟨⟨e2, g⟩, hg, heq⟩ := hmem
    obtain ⟨rfl, rfl⟩ : e2 = e ∧ (g.mergeSort descDuracion).take 3 = v :=
      ⟨congrArg Prod.fst heq, congrArg Prod.snd heq⟩
    rw [agrupa_por_estado_mem] at hg
    obtain ⟨hk, rfl⟩ := hg
    rw [List.mem_map] at hk
    obtain ⟨a, ha, rfl⟩ := hk
    have hne : l.filter (fun x => decide (x.estado = a.estado)) ≠ [] :=
      List.ne_nil_of_mem (List.mem_filter.2 ⟨ha, by simp⟩)
    have hlen := List.length_pos.2 hne
    intro hcon
    have := congrArg List.length hcon
    rw [List.length_take, List.length_mergeSort] at this
    simp only [List.length_nil] at this
    omega
  · intro e
    rw [avistamiento_mas_reciente_por_estado, keys_map_snd,
      agrupa_por_estado, pyDict_keys]
  · intro e t hmem
    rw [avistamiento_mas_reciente_por_estado, List.mem_map] at hmem
    obtain ⟨⟨e2, g⟩, hg, heq⟩ := hmem
    obtain ⟨rfl, rfl⟩ : e2 = e ∧
        (pymax (fun a => a.fechahora) g).map (fun a => a.fechahora) = t :=
      ⟨congrArg Prod.fst heq, congrArg Prod.snd heq⟩
    rw [agrupa_por_estado_mem] at hg
    obtain ⟨hk, rfl⟩ := hg
    rw [List.mem_map] at hk
    obtain ⟨a, ha, rfl⟩ := hk
    have hne : l.filter (fun x => decide (x.estado = a.estado)) ≠ [] :=
      List.ne_nil_of_mem (List.mem_filter.2 ⟨ha, by simp⟩)
    intro hcon
    cases hp : pymax (fun a => a.fechahora)
        (l.filter (fun x => decide (x.estado = a.estado))) with
    | none => exact hne ((pymax_eq_none_iff _ _).1 hp)
    | some b =>
      rw [hp] at hcon
      simp at hcon

/-- Witness for C10 on a one-record input: the date group is nonempty, the
state key is present, the default top-3 value is nonempty, and the most
recent timestamp is a real value, not a default. -/
theorem grouping_keys_exact_witness :
    ({av1} : Finset Avistamiento).Nonempty ∧
    "CA" ∈ (longitud_media_comentarios_por_estado [av1]).map Prod.fst ∧
    ([av1] : List Avistamiento) ≠ [] ∧
    some av1.fechahora ≠ none := by
  obtain ⟨-, c2, -, -, -, -, c7, -, -, c10n, -, -, c13, -⟩ :=
    grouping_keys_exact [av1]
  have hres : avistamientos_mayor_duracion_por_estado_default [av1] =
      [("CA", [av1])] := by
    rw [avistamientos_mayor_duracion_por_estado_default,
      avistamientos_mayor_duracion_por_estado]
    have hg : agrupa_por_estado [av1] = [("CA", [av1])] := by decide
    rw [hg]
    simp
  refine ⟨c2 av1.fechahora.date {av1} (by decide), (c7 "CA").mpr (by decide),
    c10n "CA" [av1] ?_, c13 "CA" (some av1.fechahora) (by decide)⟩
  rw [hres]
  exact List.mem_singleton.2 rfl

/-!
### Claim C9
-/

theorem Store.read_write_ne (σ : Store) {i j : ℕ} (h : i ≠ j)
    (v : List Avistamiento) :
    Store.read (Store.write σ j v) i = Store.read σ i := by
  rw [Store.read, Store.write, Store.read]
  rw [List.getD_eq_getElem?_getD, List.getD_eq_getElem?_getD,
    List.getElem?_set_ne (fun hh => h hh.symm)]

theorem Store.read_append_lt (σ τ : Store) {i : ℕ} (h : i < σ.length) :
    Store.read (σ ++ τ) i = Store.read σ i := by
  rw [Store.read, Store.read]
  rw [List.getD_eq_getElem?_getD, List.getD_eq_getElem?_getD,
    List.getElem?_append_left h]

theorem Store.length_write (σ : Store) (i : ℕ) (v : List Avistamiento) :
    (Store.write σ i v).length = σ.length :=
  List.length_set σ i v

theorem findVal_some_mem {κ v : Type} [DecidableEq κ] :
    ∀ (m : List (κ × v)) (k : κ) (w : v),
      findVal m k = some w → (k, w) ∈ m
  | [], k, w => by simp [findVal]
  | (k1, v1) :: m, k, w => by
    rw [findVal]
    by_cases h : k = k1
    · subst h
      rw [if_pos rfl, Option.some.injEq]
      rintro rfl
      exact List.mem_cons_self _ _
    · rw [if_neg h]
      intro h2
      exact List.mem_cons_of_mem _ (findVal_some_mem m k w h2)

theorem agrupa_fold_inv (σ0 : Store) (inp : ℕ) (hinp : inp < σ0.length) :
    ∀ (xs : List Avistamiento) (st : Store × List (String × ℕ)),
      σ0.length ≤ st.1.length →
      Store.read st.1 inp = Store.read σ0 inp →
      (∀ p ∈ st.2, σ0.length ≤ p.2) →
      (σ0.length ≤ (xs.foldl agrupaStep st).1.length ∧
       Store.read (xs.foldl agrupaStep st).1 inp = Store.read σ0 inp ∧
       ∀ p ∈ (xs.foldl agrupaStep st).2, σ0.length ≤ p.2)
  | [], st, h1, h2, h3 => ⟨h1, h2, h3⟩
  | a :: xs, st, h1, h2, h3 => by
    rw [List.foldl_cons]
    apply agrupa_fold_inv σ0 inp hinp xs
    · rw [agrupaStep]
      cases hf : findVal st.2 a.estado with
      | some addr =>
        simpa [Store.length_write] using h1
      | none =>
        simp only [Store.alloc, Store.length_write, List.length_append,
          List.length_cons, List.length_nil]
        omega
    · rw [agrupaStep]
      cases hf : findVal st.2 a.estado with
      | some addr =>
        have haddr : σ0.length ≤ addr := h3 _ (findVal_some_mem _ _ _ hf)
        rw [Store.read_write_ne _ (by omega) _, h2]
      | none =>
        simp only [Store.alloc]
        rw [Store.read_write_ne _ (by omega) _,
          Store.read_append_lt _ _ (by omega), h2]
    · rw [agrupaStep]
      cases hf : findVal st.2 a.estado with
      | some addr =>
        simpa using h3
      | none =>
        simp only [Store.alloc, List.mem_append, List.mem_singleton]
        rintro p (hp | rfl)
        · exact h3 p hp
        · exact h1

theorem recorta_fold_inv (σ0 : Store) (inp : ℕ) (hinp : inp < σ0.length)
    (n : ℕ) :
    ∀ (ys : List (String × ℕ)) (st : Store × List (String × ℕ)),
      (∀ p ∈ ys, σ0.length ≤ p.2) →
      σ0.length ≤ st.1.length →
      Store.read st.1 inp = Store.read σ0 inp →
      (σ0.length ≤ (ys.foldl (recortaStep n) st).1.length ∧
       Store.read (ys.foldl (recortaStep n) st).1 inp = Store.read σ0 inp)
  | [], st, hy, h1, h2 => ⟨h1, h2⟩
  | e :: ys, st, hy, h1, h2 => by
    rw [List.foldl_cons]
    have he : σ0.length ≤ e.2 := hy e (List.mem_cons_self _ _)
    apply recorta_fold_inv σ0 inp hinp n ys
    · intro p hp
      exact hy p (List.mem_cons_of_mem _ hp)
    · simp only [recortaStep, Store.alloc, List.length_append,
        Store.length_write, List.length_cons, List.length_nil]
      omega
    · simp only [recortaStep, Store.alloc]
      rw [Store.read_append_lt _ _ (by simp [Store.length_write]; omega),
        Store.read_write_ne _ (by omega) _, h2]

/-- Claim C9: at the heap level, none of the sorting or grouping operations
writes the input list's address — the sort of §3.3 mutates only the freshly
built filtered list, §3.5 rebinds an alias by allocating a sorted copy, and
§4.9 sorts only the per-state group objects — so the input sequence is
unchanged after every call. -/
theorem engine_preserves_input (σ : Store) (inp : ℕ) (h : inp < σ.length) :
    (∀ fi ff, Store.read (avistamientos_fechas_st σ inp fi ff).1 inp =
      Store.read σ inp) ∧
    (∀ anyo, Store.read (media_dias_entre_avistamientos_st σ inp anyo).1 inp =
      Store.read σ inp) ∧
    (∀ n, Store.read (avistamientos_mayor_duracion_por_estado_st σ inp n).1 inp =
      Store.read σ inp) := by
  refine ⟨?_, ?_, ?_⟩
  · intro fi ff
    rw [avistamientos_fechas_st]
    simp only [Store.alloc]
    rw [Store.read_write_ne _ (by omega) _, Store.read_append_lt _ _ h]
  · intro anyo
    cases anyo with
    | none =>
      simp only [media_dias_entre_avistamientos_st, Store.alloc]
      rw [Store.read_append_lt _ _ h]
    | some y =>
      simp only [media_dias_entre_avistamientos_st, Store.alloc]
      rw [Store.read_append_lt _ _ (by simp; omega),
        Store.read_append_lt _ _ h]
  · intro n
    rw [avistamientos_mayor_duracion_por_estado_st]
    obtain ⟨h1, h2, h3⟩ := agrupa_fold_inv σ inp h (Store.read σ inp)
      (σ, []) (le_refl _) rfl (by simp)
    exact (recorta_fold_inv σ inp h n _ _ h3 h1 h2).2

/-- Witness for C9 on a concrete one-cell heap. -/
theorem engine_preserves_input_witness :
    Store.read (avistamientos_fechas_st [[av2, av1]] 0 none none).1 0 =
      [av2, av1] ∧
    Store.read (media_dias_entre_avistamientos_st [[av2, av1]] 0 none).1 0 =
      [av2, av1] ∧
    Store.read (avistamientos_mayor_duracion_por_estado_st [[av2, av1]] 0 3).1 0 =
      [av2, av1] := by
  obtain ⟨c1, c2, c3⟩ := engine_preserves_input [[av2, av1]] 0 (by simp)
  exact ⟨c1 none none, c2 none, c3 3⟩

example :
    (Date.mk 2020 1 10).toOrdinal - (Date.mk 2020 1 1).toOrdinal = 9 := by decide

example :
    (Date.mk 2020 3 1).toOrdinal - (Date.mk 2020 2 28).toOrdinal = 2 := by decide

example :
    (Date.mk 2021 3 1).toOrdinal - (Date.mk 2021 2 28).toOrdinal = 1 := by decide
